import Mathlib

/-!
# A verification of the Ribir widget-inflation core

Shallow embedding of `src/core/src/application.rs` (the `Widget` variant
model, the slab-tree store operations used by `Application::add_widget`,
and the iterative work-stack loop of `Application::inflate`) and of
`src/core/src/widget_children/multi_child_impl.rs` (`MultiPair`),
together with theorems about the trees the engine builds.
-/

namespace Ribir

/-- The `Widget` enum of `crate::widget`: a tagged union of the four
widget kinds.  Each capability trait object is represented by the pure
data its single capability method yields:
* `combination b` is `Widget::Combination(w)` where `w.build() = b`
  (`build` is pure and the engine calls it once per node);
* `render r` is `Widget::Render(r)` with `r` the render payload;
* `singleChild r c` is `Widget::SingleChild(w)` where
  `w.split() = (r, c)`;
* `multiChild r cs` is `Widget::MultiChild(w)` where
  `w.split() = (r, cs)`. -/
inductive Widget (ρ : Type) : Type where
  | combination : Widget ρ → Widget ρ
  | render : ρ → Widget ρ
  | singleChild : ρ → Widget ρ → Widget ρ
  | multiChild : ρ → List (Widget ρ) → Widget ρ

mutual

/-- Size of a widget specification: one per variant plus the sizes of all
sub-widgets.  Used as the fuel bound for the inflation loop. -/
def Widget.wsize {ρ : Type} : Widget ρ → Nat
  | .combination b => Widget.wsize b + 1
  | .render _ => 1
  | .singleChild _ c => Widget.wsize c + 1
  | .multiChild _ cs => Widget.wsizeL cs + 1

/-- Total size of a list of widget specifications. -/
def Widget.wsizeL {ρ : Type} : List (Widget ρ) → Nat
  | [] => 0
  | c :: cs => Widget.wsize c + Widget.wsizeL cs

end

/-- Is this widget the `Combination` variant? -/
def Widget.isCombination {ρ : Type} : Widget ρ → Bool
  | .combination _ => true
  | _ => false

/-- The widget tree built by inflation, mirroring the `slab_tree::Tree`
stored in `Application::widget_tree`.  `NodeId`s are indices into
`nodes`; entry `i` holds the stored widget payload of node `i` and its
ordered list of children ids.  Nodes are only ever added, so an id is
valid exactly when it is in range. -/
structure WTree (ρ : Type) : Type where
  nodes : List (Widget ρ × List Nat)
  rootId : Nat

/-- Failure modes of the engine, mirroring the panics of
`Application::add_widget` (the two `expect` calls) and the possible
failures of the loop of `Application::inflate` (`stack.pop().unwrap()`),
plus fuel exhaustion of the fuel-indexed embedding of the unbounded
`loop`. -/
inductive InflateErr : Type where
  | noTree
  | badNode
  | popEmptyStack
  | outOfFuel
deriving DecidableEq

/-- `Application::add_widget(id, w)`: if `id` is `some i`, look node `i`
up in the tree (the `expect` panics become `.error .noTree` when no tree
exists and `.error .badNode` when the id is unknown) and `prepend` a new
node holding `w` as the first child of node `i`, returning its fresh id;
if `id` is `none`, build a brand-new tree whose root holds `w`,
replacing any previous tree, and return the root id. -/
def addWidget {ρ : Type} (tree : Option (WTree ρ)) (id : Option Nat)
    (w : Widget ρ) : Except InflateErr (WTree ρ × Nat) :=
  match id with
  | some i =>
    match tree with
    | none => .error .noTree
    | some t =>
      match t.nodes[i]? with
      | none => .error .badNode
      | some (pay, ch) =>
        .ok (⟨t.nodes.set i (pay, t.nodes.length :: ch) ++ [(w, [])], t.rootId⟩,
          t.nodes.length)
  | none => .ok (⟨[(w, [])], 0⟩, 0)

/-- The two kinds of work item of `Application::inflate`'s stack:
a pending widget, or the id of a node that was just materialized. -/
inductive StackElem (ρ : Type) : Type where
  | widget : Widget ρ → StackElem ρ
  | nodeId : Nat → StackElem ρ

/-- `inflate_widget` from `Application::inflate`: resolve one widget,
returning the widget payload to store and the stack with the sub-widgets
pushed.  A `Combination` pushes its single build result and is itself
returned for storage; `Render` is returned unchanged; `SingleChild`
pushes its one split child; `MultiChild` pushes each split child in
order (`for_each` over the vector, so the last child ends up on top).
The stack is a list whose head is the top. -/
def inflate_widget {ρ : Type} (w : Widget ρ) (stack : List (StackElem ρ)) :
    Widget ρ × List (StackElem ρ) :=
  match w with
  | .combination b => (.combination b, .widget b :: stack)
  | .render r => (.render r, stack)
  | .singleChild r c => (.render r, .widget c :: stack)
  | .multiChild r cs => (.render r, cs.foldl (fun st c => .widget c :: st) stack)

/-- The `loop` of `Application::inflate`, fuel-indexed.  Each iteration
pops one element (`stack.pop().unwrap()`; an empty stack is the
`.popEmptyStack` failure).  A `NodeID` marker updates the current parent
context `nid`; a widget is resolved by `inflate_widget`, stored under
the current context by `addWidget`, and its fresh id is pushed.  The
loop exits when the stack is empty after an iteration, yielding the
tree. -/
def inflateLoop {ρ : Type} : Nat → List (StackElem ρ) → Option (WTree ρ) →
    Option Nat → Except InflateErr (Option (WTree ρ))
  | 0, _, _, _ => .error .outOfFuel
  | _ + 1, [], _, _ => .error .popEmptyStack
  | fuel + 1, .nodeId i :: rest, tree, _ =>
    if rest.isEmpty then .ok tree
    else inflateLoop fuel rest tree (some i)
  | fuel + 1, .widget w :: rest, tree, nid =>
    match inflate_widget w rest with
    | (wn, stack1) =>
      match addWidget tree nid wn with
      | .error e => .error e
      | .ok (t, newId) =>
        let stack2 := StackElem.nodeId newId :: stack1
        if stack2.isEmpty then .ok (some t)
        else inflateLoop fuel stack2 (some t) nid

/-- Weight of a stack: a widget item weighs twice its size, a node-id
marker weighs one.  Each iteration of `inflateLoop` decreases this by
exactly one, so it is the precise iteration count. -/
def stackMeasure {ρ : Type} : List (StackElem ρ) → Nat
  | [] => 0
  | .nodeId _ :: rest => 1 + stackMeasure rest
  | .widget w :: rest => 2 * w.wsize + stackMeasure rest

/-- `Application::inflate`: run the loop on the singleton stack holding
the root widget, with no parent context, starting from the tree `tree`
(a fresh `Application` starts with `none`).  The fuel `2 * w.wsize` is
exactly the number of iterations the loop performs (proved below). -/
def inflate {ρ : Type} (tree : Option (WTree ρ)) (w : Widget ρ) :
    Except InflateErr (Option (WTree ρ)) :=
  inflateLoop (2 * w.wsize) [.widget w] tree none

/-- Node count of an inflation result, for stating shape facts. -/
def resultNodeCount {ρ : Type} : Except InflateErr (Option (WTree ρ)) → Option Nat
  | .ok (some t) => some t.nodes.length
  | _ => none

/-- The flags "is the stored payload a `Combination`?", node by node, of an
inflation result. -/
def storedCombinationFlags {ρ : Type} :
    Except InflateErr (Option (WTree ρ)) → List Bool
  | .ok (some t) => t.nodes.map (fun p => p.1.isCombination)
  | _ => []

/-- Render payloads of the test module of `application.rs`: `Text` leaves
and the `RenderRow` object that `Row::split` yields. -/
inductive RPay : Type where
  | text : String → RPay
  | row : RPay

/-- The `EmbedPost` combination widget of the test module, with the field
values of the `widget_tree_inflate` test.  `CombinationWidget::build`
produces a `Row` (a `MultiChild`) of three `Text` leaves, plus one more
`EmbedPost` with `level - 1` while `level > 0`; the `Combination` value
holds that build result. -/
def embedPost : Nat → Widget RPay
  | 0 => .combination (.multiChild .row
      [.render (.text "Simple demo"), .render (.text "Adoo"),
       .render (.text "Recursive 3 times")])
  | n + 1 => .combination (.multiChild .row
      [.render (.text "Simple demo"), .render (.text "Adoo"),
       .render (.text "Recursive 3 times"), embedPost n])

/-- Tree cells forming a single chain out of the given payloads, with ids
starting at `k`: every node's children list is `[next id]`, except the
last node, whose children list is empty. -/
def chainCells {ρ : Type} (k : Nat) : List (Widget ρ) → List (Widget ρ × List Nat)
  | [] => []
  | [w] => [(w, [])]
  | w :: ws => (w, [k + 1]) :: chainCells (k + 1) ws

/-- The three `Text` leaves of one `Row` of `EmbedPost::build`, in the
order the inflation loop materializes them (last split child first). -/
def embedTexts : List (Widget RPay) :=
  [.render (.text "Recursive 3 times"), .render (.text "Adoo"),
   .render (.text "Simple demo")]

/-- The payload sequence of the chain the engine builds from
`embedPost 3`. -/
def embedChain3 : List (Widget RPay) :=
  [embedPost 3, .render .row, embedPost 2, .render .row,
   embedPost 1, .render .row, embedPost 0, .render .row] ++
  embedTexts ++ embedTexts ++ embedTexts ++ embedTexts

/-- `MultiPair` of `multi_child_impl.rs`: a parent-designate widget plus
the ordered, already-normalized list of child widgets. -/
structure MultiPair (ρ : Type) : Type where
  parent : Widget ρ
  children : List (Widget ρ)

/-- The shapes a child argument accepted by `IntoChildMulti` can take in
`multi_child_impl.rs`: a single widget (the `Widget`/`IntoWidgetStrict`
impls wrap it as a one-element iterator), or an iterable collection (the
`IntoIterator` impl flattens it in iteration order). -/
inductive ChildMulti (ρ : Type) : Type where
  | single : Widget ρ → ChildMulti ρ
  | iterable : List (Widget ρ) → ChildMulti ρ

/-- `into_child_multi`: the ordered widget sequence a child argument
expands to. -/
def intoChildMulti {ρ : Type} : ChildMulti ρ → List (Widget ρ)
  | .single w => [w]
  | .iterable ws => ws

/-- `MultiPair::new`: collect the expansion of `children` next to the
parent's widget. -/
def MultiPair.new {ρ : Type} (parent : Widget ρ) (children : ChildMulti ρ) :
    MultiPair ρ :=
  ⟨parent, intoChildMulti children⟩

/-- `MultiPair::with_child`: push each widget of the child argument's
expansion onto the accumulated children, in order (the `for`/`push`
loop), keeping the parent. -/
def MultiPair.with_child {ρ : Type} (p : MultiPair ρ) (child : ChildMulti ρ) :
    MultiPair ρ :=
  ⟨p.parent, (intoChildMulti child).foldl (fun v c => v ++ [c]) p.children⟩

/-- A stack whose elements are all pending widgets. -/
def allWidgets {ρ : Type} (stack : List (StackElem ρ)) : Prop :=
  ∀ e ∈ stack, match e with
    | StackElem.widget _ => True
    | StackElem.nodeId _ => False

/-- All node-id markers on the stack are valid ids for a store of `n`
nodes. -/
def idsBound {ρ : Type} (n : Nat) (stack : List (StackElem ρ)) : Prop :=
  ∀ i, StackElem.nodeId i ∈ stack → i < n

/-- The loop invariant of `Application::inflate`: before the first node
is materialized the stack holds only widgets and there is no parent
context; immediately after a node is materialized its id marker is on
top; afterwards the parent context and every marker name a valid id. -/
def Inv {ρ : Type} : List (StackElem ρ) → Option (WTree ρ) → Option Nat → Prop
  | stack, none, none => allWidgets stack
  | _, none, some _ => False
  | stack, some t, none =>
    match stack with
    | .nodeId i :: rest => i < t.nodes.length ∧ idsBound t.nodes.length rest
    | _ => False
  | stack, some t, some p => p < t.nodes.length ∧ idsBound t.nodes.length stack

/-- The widget specification built purely from `Render` and
`SingleChild` variants: `SingleChild` wrappers with split render
payloads `ps`, innermost `Render` payload `r`. -/
def chainSpec {ρ : Type} : List ρ → ρ → Widget ρ
  | [], r => .render r
  | q :: ps, r => .singleChild q (chainSpec ps r)

/-- The tree cells inflation is expected to produce for `chainSpec`,
with ids starting at `k`: one `Render` node per payload, each holding
exactly the next id as its children, the innermost holding none. -/
def chainNodes {ρ : Type} (k : Nat) : List ρ → ρ → List (Widget ρ × List Nat)
  | [], r => [(.render r, [])]
  | q :: ps, r => (.render q, [k + 1]) :: chainNodes (k + 1) ps r

/-- Append a chain of `Render` nodes under node `pid` of `t`, one
`addWidget` call per link, each next link under the node the previous
call created. -/
def appendChain {ρ : Type} (t : WTree ρ) (pid : Nat) : List ρ → ρ → WTree ρ
  | [], r =>
    match addWidget (some t) (some pid) (.render r) with
    | .ok (t', _) => t'
    | .error _ => t
  | q :: ps, r =>
    match addWidget (some t) (some pid) (.render q) with
    | .ok (t', nid) => appendChain t' nid ps r
    | .error _ => t

/-- Widget specifications built purely from `Render` and `SingleChild`
variants, together with their nesting depth. -/
inductive PureRenderSingle {ρ : Type} : Widget ρ → Nat → Prop where
  | render (r : ρ) : PureRenderSingle (.render r) 0
  | single (q : ρ) {c : Widget ρ} {d : Nat} :
      PureRenderSingle c d → PureRenderSingle (.singleChild q c) (d + 1)

/-- The tree is a single chain: rooted at id 0, node `i`'s children are
exactly `[i + 1]`, except the last node, which has none. -/
def chainShape {ρ : Type} (t : WTree ρ) : Prop :=
  t.rootId = 0 ∧ ∀ (i : Nat) (h : i < t.nodes.length),
    (t.nodes.get ⟨i, h⟩).2 = if i + 1 < t.nodes.length then [i + 1] else []

/-- Pushing elements one by one is appending the list. -/
theorem foldl_push_eq_append {α : Type} (cs acc : List α) :
    cs.foldl (fun v c => v ++ [c]) acc = acc ++ cs := by
  induction cs generalizing acc with
  | nil => simp
  | cons c cs ih => simp [List.foldl_cons, ih, List.append_assoc]

/-- Claim C1 counterexample: the tree built from `Combination(X)` with
`X.build() = Render(Y)` (here `Y` the payload `0`) is distinguishable
from the tree built from `Render(Y)` directly, and its root stores a
`Combination` payload. -/
theorem combination_transparency_fails :
    inflate none (Widget.combination (.render (0 : Nat))) ≠
      inflate none (Widget.render (0 : Nat)) ∧
    storedCombinationFlags (inflate none (Widget.combination (.render (0 : Nat)))) =
      [true, false] := by
  refine ⟨fun h => absurd (congrArg resultNodeCount h) (by decide), rfl⟩

/-- Claim C1 (amended): inflation stores the `Combination` itself as a
node.  A tree built from `Combination(X)` where `X.build()` returns
`Render(y)` has two nodes: the root stores the `Combination` payload and
has exactly one child, which stores `Render(y)`; the tree built from
`Render(y)` directly has a single node. -/
theorem combination_stored_as_node {ρ : Type} (y : ρ) :
    inflate none (Widget.combination (.render y)) =
      .ok (some ⟨[(.combination (.render y), [1]), (.render y, [])], 0⟩) ∧
    inflate none (Widget.render y) = .ok (some ⟨[(.render y, [])], 0⟩) :=
  ⟨rfl, rfl⟩

/-- Claim C2: evaluating the engine on a `MultiChild` whose split yields
the three `Render` children `[c0, c1, c2]` (payloads `0, 1, 2`, parent
render payload `9`).  The parent's node (id 0) gets the single direct
child id 1 holding `c2`'s payload; `c1`'s node nests under `c2`'s and
`c0`'s under `c1`'s, so the split order is not reproduced as the
children of the parent node. -/
theorem multiChild_siblings_nest :
    inflate none (Widget.multiChild (9 : Nat) [.render 0, .render 1, .render 2]) =
      .ok (some ⟨[(.render 9, [1]), (.render 2, [2]), (.render 1, [3]),
        (.render 0, [])], 0⟩) := rfl

/-- Claim C3 counterexample: inflating `EmbedPost` with `level = 3`
yields 20 stored nodes, not the 16 the claim states (the 4 `Combination`
values are stored as nodes of their own). -/
theorem embedPost_level3_not_sixteen_nodes :
    resultNodeCount (inflate none (embedPost 3)) = some 20 ∧
    resultNodeCount (inflate none (embedPost 3)) ≠ some 16 :=
  ⟨rfl, by decide⟩

/-- Claim C3 (amended): inflating `EmbedPost` with `level = 3` yields a
single 20-node chain — `Combination(level 3)`, its row, then
`Combination(level 2)`, its row, down to `Combination(level 0)` and its
row, followed by the twelve `Text` leaves (content, author, title, four
times); every node has exactly one child except the last. -/
theorem embedPost_level3_tree :
    inflate none (embedPost 3) = .ok (some ⟨chainCells 0 embedChain3, 0⟩) := rfl

/-- Claim C6: inserting a widget under a `NodeId` that does not exist in
the store fails at that call with the `badNode` failure (the
`expect("node have to exist in logic")` panic), and inserting under any
id when no tree exists at all fails with the `noTree` failure (the
`expect("root have to exist in logic")` panic); in both cases no tree is
returned. -/
theorem addWidget_unknown_parent_fails {ρ : Type} (t : WTree ρ) (i : Nat)
    (w w' : Widget ρ) (h : t.nodes[i]? = none) :
    addWidget (some t) (some i) w = .error .badNode ∧
    addWidget (ρ := ρ) none (some i) w' = .error .noTree := by
  refine ⟨?_, rfl⟩
  simp only [addWidget, h]

/-- Witness for claim C6 at a one-node tree and the unknown id 5. -/
theorem addWidget_unknown_parent_fails_witness :
    addWidget (some ⟨[(Widget.render (0 : Nat), [])], 0⟩) (some 5) (.render 1) =
      .error .badNode ∧
    addWidget (ρ := Nat) none (some 5) (.render 2) = .error .noTree :=
  addWidget_unknown_parent_fails ⟨[(Widget.render 0, [])], 0⟩ 5 (.render 1)
    (.render 2) rfl

/-- Claim C7: zero children are valid: normalizing an empty iterable
into a `MultiPair` yields the parent with the empty ordered children
sequence (no failure), and inflating a `MultiChild` whose split yields
no children produces a present node with an empty children list. -/
theorem empty_children_valid {ρ : Type} (p : Widget ρ) (r : ρ) :
    MultiPair.new p (.iterable []) = ⟨p, []⟩ ∧
    inflate none (Widget.multiChild r []) =
      .ok (some ⟨[(.render r, [])], 0⟩) :=
  ⟨rfl, rfl⟩

/-- Claim C8: adding a widget with no parent target always succeeds,
discards whatever tree existed before in its entirety (the result does
not depend on `tree`), and returns the id of the new root together with
the single-node tree rooted at it. -/
theorem root_creation_succeeds {ρ : Type} (tree : Option (WTree ρ)) (w : Widget ρ) :
    addWidget tree none w = .ok (⟨[(w, [])], 0⟩, 0) := rfl

/-- Claim C5: `MultiPair` child accumulation is associative:
`MultiPair::new(p, [a,b]).with_child([c,d])` holds the same ordered
children `[a,b,c,d]` as `MultiPair::new(p, [a,b,c,d])`, and chaining
`with_child(x).with_child(y)` equals one `with_child` on the
concatenation of the two expansions. -/
theorem multiPair_with_child_assoc {ρ : Type} (p a b c d : Widget ρ)
    (mp : MultiPair ρ) (x y : ChildMulti ρ) :
    (MultiPair.new p (.iterable [a, b])).with_child (.iterable [c, d]) =
      MultiPair.new p (.iterable [a, b, c, d]) ∧
    (mp.with_child x).with_child y =
      mp.with_child (.iterable (intoChildMulti x ++ intoChildMulti y)) := by
  constructor
  · rfl
  · simp [MultiPair.with_child, intoChildMulti, foldl_push_eq_append,
      List.append_assoc]

/-- Every widget has positive size. -/
theorem wsize_pos {ρ : Type} (w : Widget ρ) : 1 ≤ w.wsize := by
  cases w <;> simp [Widget.wsize]

theorem idsBound_mono {ρ : Type} {n m : Nat} {s : List (StackElem ρ)}
    (h : idsBound n s) (hnm : n ≤ m) : idsBound m s :=
  fun i hi => lt_of_lt_of_le (h i hi) hnm

theorem idsBound_of_cons {ρ : Type} {n : Nat} {e : StackElem ρ}
    {s : List (StackElem ρ)} (h : idsBound n (e :: s)) : idsBound n s :=
  fun i hi => h i (List.mem_cons_of_mem _ hi)

theorem idsBound_cons_widget {ρ : Type} {n : Nat} {w : Widget ρ}
    {s : List (StackElem ρ)} (h : idsBound n s) :
    idsBound n (StackElem.widget w :: s) := by
  intro i hi
  rcases List.mem_cons.mp hi with h1 | h2
  · exact absurd h1 (by simp)
  · exact h i h2

theorem idsBound_foldl_push {ρ : Type} {n : Nat} (cs : List (Widget ρ))
    {s : List (StackElem ρ)} (h : idsBound n s) :
    idsBound n (cs.foldl (fun st c => StackElem.widget c :: st) s) := by
  induction cs generalizing s with
  | nil => exact h
  | cons c cs ih => exact ih (idsBound_cons_widget h)

theorem allWidgets_of_cons {ρ : Type} {e : StackElem ρ} {s : List (StackElem ρ)}
    (h : allWidgets (e :: s)) : allWidgets s :=
  fun x hx => h x (List.mem_cons_of_mem _ hx)

theorem allWidgets_cons_widget {ρ : Type} {w : Widget ρ} {s : List (StackElem ρ)}
    (h : allWidgets s) : allWidgets (StackElem.widget w :: s) := by
  intro e he
  rcases List.mem_cons.mp he with h1 | h2
  · subst h1; trivial
  · exact h e h2

theorem allWidgets_foldl_push {ρ : Type} (cs : List (Widget ρ))
    {s : List (StackElem ρ)} (h : allWidgets s) :
    allWidgets (cs.foldl (fun st c => StackElem.widget c :: st) s) := by
  induction cs generalizing s with
  | nil => exact h
  | cons c cs ih => exact ih (allWidgets_cons_widget h)

theorem idsBound_of_allWidgets {ρ : Type} {n : Nat} {s : List (StackElem ρ)}
    (h : allWidgets s) : idsBound n s := by
  intro i hi
  exact absurd (h _ hi) (by simp)

theorem stackMeasure_foldl_push {ρ : Type} (cs : List (Widget ρ))
    (s : List (StackElem ρ)) :
    stackMeasure (cs.foldl (fun st c => StackElem.widget c :: st) s) =
      2 * Widget.wsizeL cs + stackMeasure s := by
  induction cs generalizing s with
  | nil => simp [Widget.wsizeL]
  | cons c cs ih =>
    simp only [List.foldl_cons, ih, Widget.wsizeL, stackMeasure]
    ring

/-- `addWidget` never reports the empty-pop failure: its only failures
are the two parent-lookup panics. -/
theorem addWidget_ne_popEmpty {ρ : Type} (tree : Option (WTree ρ))
    (id : Option Nat) (w : Widget ρ) :
    addWidget tree id w ≠ .error .popEmptyStack := by
  cases id with
  | none => simp [addWidget]
  | some i =>
    cases tree with
    | none => simp [addWidget]
    | some t =>
      cases h : t.nodes[i]? with
      | none => simp [addWidget, h]
      | some pc => cases pc with
        | mk pay ch => simp [addWidget, h]

/-- As long as the stack is non-empty at entry, no iteration of the loop
ever pops from an empty stack: every iteration that continues pushes the
fresh node id (widget case) or only runs on a non-empty remainder
(marker case, guarded by the bottom-of-loop emptiness check). -/
theorem inflateLoop_ne_popEmpty {ρ : Type} :
    ∀ (fuel : Nat) (stack : List (StackElem ρ)) (tree : Option (WTree ρ))
      (nid : Option Nat), stack ≠ [] →
      inflateLoop fuel stack tree nid ≠ .error .popEmptyStack := by
  intro fuel
  induction fuel with
  | zero => intro stack tree nid _; simp [inflateLoop]
  | succ fuel ih =>
    intro stack tree nid hne
    cases stack with
    | nil => exact absurd rfl hne
    | cons e rest =>
      cases e with
      | nodeId i =>
        simp only [inflateLoop]
        by_cases hr : rest.isEmpty
        · simp [hr]
        · simpa [hr] using ih rest tree (some i) (by simpa using hr)
      | widget w =>
        simp only [inflateLoop]
        rcases hiw : inflate_widget w rest with ⟨wn, stack1⟩
        cases ha : addWidget tree nid wn with
        | error e =>
          intro hcontra
          simp only [ha] at hcontra
          exact addWidget_ne_popEmpty tree nid wn (ha.trans (by
            injection hcontra with h1
            rw [h1]))
        | ok ti =>
          cases ti with
          | mk t newId =>
            simpa [ha] using
              ih (StackElem.nodeId newId :: stack1) (some t) nid (by simp)

/-- The inflation loop always reaches the empty stack and yields the
store: the measure (twice the total pending widget size plus the number
of markers) drops by exactly one each iteration, so `fuel ≥ measure`
suffices; the loop invariant `Inv` keeps every `addWidget` call
successful. -/
theorem inflateLoop_ok {ρ : Type} :
    ∀ (fuel : Nat) (stack : List (StackElem ρ)) (tree : Option (WTree ρ))
      (nid : Option Nat), Inv stack tree nid → stack ≠ [] →
      stackMeasure stack ≤ fuel →
      ∃ t, inflateLoop fuel stack tree nid = .ok t := by
  intro fuel
  induction fuel with
  | zero =>
    intro stack tree nid _ hne hm
    exfalso
    cases stack with
    | nil => exact hne rfl
    | cons e rest =>
      cases e with
      | widget w =>
        have := wsize_pos w
        simp only [stackMeasure] at hm
        omega
      | nodeId i =>
        simp only [stackMeasure] at hm
        omega
  | succ fuel ih =>
    intro stack tree nid hinv hne hm
    cases stack with
    | nil => exact absurd rfl hne
    | cons e rest =>
      cases e with
      | nodeId i =>
        cases tree with
        | none =>
          cases nid with
          | none => exact absurd (hinv _ (List.mem_cons_self _ _)) (by simp)
          | some p => exact hinv.elim
        | some t =>
          cases nid with
          | none =>
            obtain ⟨hilt, hbound⟩ := hinv
            simp only [inflateLoop]
            by_cases hr : rest.isEmpty
            · exact ⟨some t, by simp [hr]⟩
            · have hrne : rest ≠ [] := by simpa using hr
              have hm' : stackMeasure rest ≤ fuel := by
                simp only [stackMeasure] at hm; omega
              simpa [hr] using ih rest (some t) (some i) ⟨hilt, hbound⟩ hrne hm'
          | some p =>
            obtain ⟨hplt, hbound⟩ := hinv
            have hilt : i < t.nodes.length :=
              hbound i (List.mem_cons_self _ _)
            simp only [inflateLoop]
            by_cases hr : rest.isEmpty
            · exact ⟨some t, by simp [hr]⟩
            · have hrne : rest ≠ [] := by simpa using hr
              have hm' : stackMeasure rest ≤ fuel := by
                simp only [stackMeasure] at hm; omega
              simpa [hr] using ih rest (some t) (some i)
                ⟨hilt, idsBound_of_cons hbound⟩ hrne hm'
      | widget w =>
        cases tree with
        | none =>
          cases nid with
          | some p => exact hinv.elim
          | none =>
            have hAll : allWidgets (StackElem.widget w :: rest) := hinv
            have hAllRest : allWidgets rest := allWidgets_of_cons hAll
            cases w with
            | combination b =>
              simp only [inflateLoop, inflate_widget, addWidget, List.isEmpty_cons,
                Bool.false_eq_true, if_false]
              refine ih _ _ _ ?_ (by simp) ?_
              · exact ⟨Nat.zero_lt_one,
                  idsBound_of_allWidgets (allWidgets_cons_widget hAllRest)⟩
              · simp only [stackMeasure, Widget.wsize] at hm ⊢
                omega
            | render r =>
              simp only [inflateLoop, inflate_widget, addWidget, List.isEmpty_cons,
                Bool.false_eq_true, if_false]
              refine ih _ _ _ ?_ (by simp) ?_
              · exact ⟨Nat.zero_lt_one, idsBound_of_allWidgets hAllRest⟩
              · simp only [stackMeasure, Widget.wsize] at hm ⊢
                omega
            | singleChild r c =>
              simp only [inflateLoop, inflate_widget, addWidget, List.isEmpty_cons,
                Bool.false_eq_true, if_false]
              refine ih _ _ _ ?_ (by simp) ?_
              · exact ⟨Nat.zero_lt_one,
                  idsBound_of_allWidgets (allWidgets_cons_widget hAllRest)⟩
              · simp only [stackMeasure, Widget.wsize] at hm ⊢
                omega
            | multiChild r cs =>
              simp only [inflateLoop, inflate_widget, addWidget, List.isEmpty_cons,
                Bool.false_eq_true, if_false]
              refine ih _ _ _ ?_ (by simp) ?_
              · exact ⟨Nat.zero_lt_one,
                  idsBound_of_allWidgets (allWidgets_foldl_push cs hAllRest)⟩
              · simp only [stackMeasure, Widget.wsize] at hm ⊢
                rw [stackMeasure_foldl_push]
                omega
        | some t =>
          cases nid with
          | none => exact hinv.elim
          | some p =>
            obtain ⟨hplt, hbound⟩ := hinv
            have hboundRest : idsBound t.nodes.length rest :=
              idsBound_of_cons hbound
            rcases hpc : t.nodes[p] with ⟨pay, ch⟩
            have hget : t.nodes[p]? = some (pay, ch) := by
              rw [List.getElem?_eq_getElem hplt, hpc]
            have hlen : ∀ wn : Widget ρ,
                (t.nodes.set p (pay, t.nodes.length :: ch) ++
                  [(wn, [])]).length = t.nodes.length + 1 := by
              intro wn; simp
            cases w with
            | combination b =>
              simp only [inflateLoop, inflate_widget, addWidget, hget,
                List.isEmpty_cons, Bool.false_eq_true, if_false]
              refine ih _ _ _ ?_ (by simp) ?_
              · refine ⟨by rw [hlen]; omega, ?_⟩
                intro j hj
                rcases List.mem_cons.mp hj with h1 | h2
                · have : j = t.nodes.length := by injection h1
                  rw [this, hlen]; omega
                · have := idsBound_cons_widget hboundRest j h2
                  rw [hlen]; omega
              · simp only [stackMeasure, Widget.wsize] at hm ⊢
                omega
            | render r =>
              simp only [inflateLoop, inflate_widget, addWidget, hget,
                List.isEmpty_cons, Bool.false_eq_true, if_false]
              refine ih _ _ _ ?_ (by simp) ?_
              · refine ⟨by rw [hlen]; omega, ?_⟩
                intro j hj
                rcases List.mem_cons.mp hj with h1 | h2
                · have : j = t.nodes.length := by injection h1
                  rw [this, hlen]; omega
                · have := hboundRest j h2
                  rw [hlen]; omega
              · simp only [stackMeasure, Widget.wsize] at hm ⊢
                omega
            | singleChild r c =>
              simp only [inflateLoop, inflate_widget, addWidget, hget,
                List.isEmpty_cons, Bool.false_eq_true, if_false]
              refine ih _ _ _ ?_ (by simp) ?_
              · refine ⟨by rw [hlen]; omega, ?_⟩
                intro j hj
                rcases List.mem_cons.mp hj with h1 | h2
                · have : j = t.nodes.length := by injection h1
                  rw [this, hlen]; omega
                · have := idsBound_cons_widget hboundRest j h2
                  rw [hlen]; omega
              · simp only [stackMeasure, Widget.wsize] at hm ⊢
                omega
            | multiChild r cs =>
              simp only [inflateLoop, inflate_widget, addWidget, hget,
                List.isEmpty_cons, Bool.false_eq_true, if_false]
              refine ih _ _ _ ?_ (by simp) ?_
              · refine ⟨by rw [hlen]; omega, ?_⟩
                intro j hj
                rcases List.mem_cons.mp hj with h1 | h2
                · have : j = t.nodes.length := by injection h1
                  rw [this, hlen]; omega
                · have := idsBound_foldl_push cs hboundRest j h2
                  rw [hlen]; omega
              · simp only [stackMeasure, Widget.wsize] at hm ⊢
                rw [stackMeasure_foldl_push]
                omega

/-- Claim C9: inflation terminates for every widget specification.  Each
`Combination` work item is replaced by exactly one new pending item (its
single build result), so the loop's work measure strictly decreases and
the stack is eventually emptied, yielding the finished store.  (In this
embedding every chain of `Combination` expansions is finite by
construction, which is the claim's hypothesis.) -/
theorem inflation_terminates {ρ : Type} (w : Widget ρ) :
    (∀ (b : Widget ρ) (stack : List (StackElem ρ)),
      ((inflate_widget (.combination b) stack).2).length = stack.length + 1) ∧
    ∃ t, inflate none w = .ok t := by
  constructor
  · intro b stack; rfl
  · refine inflateLoop_ok _ _ _ _ ?_ (by simp) ?_
    · intro e he
      have : e = StackElem.widget w := by simpa using he
      subst this; trivial
    · simp [stackMeasure]

theorem chainSpec_wsize {ρ : Type} (ps : List ρ) (r : ρ) :
    (chainSpec ps r).wsize = ps.length + 1 := by
  induction ps with
  | nil => rfl
  | cons q ps ih => simp [chainSpec, Widget.wsize, ih]

theorem chainNodes_length {ρ : Type} (k : Nat) (ps : List ρ) (r : ρ) :
    (chainNodes k ps r).length = ps.length + 1 := by
  induction ps generalizing k with
  | nil => rfl
  | cons q ps ih => simp [chainNodes, ih]

theorem chainNodes_children {ρ : Type} :
    ∀ (ps : List ρ) (k : Nat) (r : ρ) (i : Nat)
      (h : i < (chainNodes k ps r).length),
      ((chainNodes k ps r).get ⟨i, h⟩).2 =
        if i + 1 < (chainNodes k ps r).length then [k + i + 1] else [] := by
  intro ps
  induction ps with
  | nil =>
    intro k r i h
    simp [chainNodes] at h
    subst h
    simp [chainNodes]
  | cons q ps ih =>
    intro k r i h
    cases i with
    | zero =>
      rw [if_pos (by simp only [chainNodes_length, List.length_cons]; omega)]
      simp [chainNodes]
    | succ j =>
      have hj : j < (chainNodes (k + 1) ps r).length := by
        simpa [chainNodes] using h
      have := ih (k + 1) r j hj
      simp only [chainNodes, List.length_cons, List.get_cons_succ]
      rw [this]
      simp only [chainNodes_length] at *
      by_cases hlt : j + 1 < ps.length + 1
      · rw [if_pos hlt, if_pos (by omega)]
        have : k + 1 + j + 1 = k + (j + 1) + 1 := by omega
        rw [this]
      · rw [if_neg hlt, if_neg (by omega)]

/-- One loop run on a singleton stack holding a pure `Render` /
`SingleChild` chain, under a valid parent, appends the chain under that
parent, link by link. -/
theorem inflateLoop_chain {ρ : Type} :
    ∀ (ps : List ρ) (r : ρ) (t : WTree ρ) (pid fuel : Nat),
      pid < t.nodes.length → 2 * (ps.length + 1) ≤ fuel →
      inflateLoop fuel [StackElem.widget (chainSpec ps r)] (some t) (some pid) =
        .ok (some (appendChain t pid ps r)) := by
  intro ps
  induction ps with
  | nil =>
    intro r t pid fuel hpid hfuel
    obtain ⟨f, rfl⟩ : ∃ f, fuel = f + 1 + 1 := ⟨fuel - 2, by omega⟩
    rcases hpc : t.nodes[pid] with ⟨pay, ch⟩
    have hget : t.nodes[pid]? = some (pay, ch) := by
      rw [List.getElem?_eq_getElem hpid, hpc]
    simp [inflateLoop, chainSpec, inflate_widget, addWidget, hget, appendChain]
  | cons q ps ih =>
    intro r t pid fuel hpid hfuel
    obtain ⟨f, rfl⟩ : ∃ f, fuel = f + 1 + 1 := ⟨fuel - 2, by omega⟩
    rcases hpc : t.nodes[pid] with ⟨pay, ch⟩
    have hget : t.nodes[pid]? = some (pay, ch) := by
      rw [List.getElem?_eq_getElem hpid, hpc]
    simp only [inflateLoop, chainSpec, inflate_widget, addWidget, hget,
      List.isEmpty_cons, Bool.false_eq_true, if_false, appendChain]
    rw [ih r _ t.nodes.length f (by simp)
      (by simp only [List.length_cons] at hfuel; omega)]

/-- Appending a chain under the (childless) last node of a store lays
the chain out as consecutive cells continuing the store. -/
theorem appendChain_cells {ρ : Type} :
    ∀ (ps : List ρ) (r : ρ) (A : List (Widget ρ × List Nat)) (w : Widget ρ)
      (rid : Nat),
      appendChain ⟨A ++ [(w, [])], rid⟩ A.length ps r =
        ⟨A ++ (w, [A.length + 1]) :: chainNodes (A.length + 1) ps r, rid⟩ := by
  intro ps
  induction ps with
  | nil =>
    intro r A w rid
    have hget : (A ++ [(w, [])])[A.length]? = some (w, []) :=
      List.getElem?_concat_length A (w, [])
    have hset : ∀ y : Widget ρ × List Nat,
        (A ++ [(w, [])]).set A.length y = A ++ [y] := by
      intro y
      rw [List.set_append_right _ _ (Nat.le_refl _)]
      simp
    simp [appendChain, addWidget, hget, hset, chainNodes]
  | cons q ps ih =>
    intro r A w rid
    have hget : (A ++ [(w, [])])[A.length]? = some (w, []) :=
      List.getElem?_concat_length A (w, [])
    have hset : ∀ y : Widget ρ × List Nat,
        (A ++ [(w, [])]).set A.length y = A ++ [y] := by
      intro y
      rw [List.set_append_right _ _ (Nat.le_refl _)]
      simp
    simp only [appendChain, addWidget, hget, hset, List.length_append,
      List.length_cons, List.length_nil, Nat.zero_add]
    have hA : A ++ [(w, [A.length + 1])] ++ [((Widget.render q : Widget ρ), [])] =
        (A ++ [(w, [A.length + 1])]) ++ [(Widget.render q, [])] := by
      simp
    rw [show (A ++ [(w, [A.length + 1])] : List (Widget ρ × List Nat)) ++
        [(Widget.render q, [])] =
        (A ++ [(w, [A.length + 1])]) ++ [(Widget.render q, [])] from rfl]
    have hlen : (A ++ [(w, [A.length + 1])]).length = A.length + 1 := by simp
    have := ih r (A ++ [(w, [A.length + 1])]) (Widget.render q) rid
    rw [hlen] at this
    rw [this]
    simp [chainNodes]

/-- Every pure `Render`/`SingleChild` specification of depth `d` is a
`chainSpec` with `d` wrapper payloads. -/
theorem pureRenderSingle_decomp {ρ : Type} {w : Widget ρ} {d : Nat}
    (h : PureRenderSingle w d) :
    ∃ (ps : List ρ) (r : ρ), w = chainSpec ps r ∧ ps.length = d := by
  induction h with
  | render r => exact ⟨[], r, rfl, rfl⟩
  | single q hc ih =>
    obtain ⟨ps, r, rfl, rfl⟩ := ih
    exact ⟨q :: ps, r, rfl, by simp⟩

/-- Claim C4: inflating a widget specification built purely from
`Render` and `SingleChild` variants nested to depth `D` produces a store
of exactly `D + 1` nodes arranged in a single chain: node `i`'s children
are exactly `[i + 1]` except the deepest node, which has none. -/
theorem render_single_chain_inflation {ρ : Type} (w : Widget ρ) (D : Nat)
    (h : PureRenderSingle w D) :
    ∃ (ps : List ρ) (r : ρ), w = chainSpec ps r ∧
      inflate none w = .ok (some ⟨chainNodes 0 ps r, 0⟩) ∧
      (chainNodes 0 ps r).length = D + 1 ∧
      chainShape ⟨chainNodes 0 ps r, 0⟩ := by
  obtain ⟨ps, r, rfl, rfl⟩ := pureRenderSingle_decomp h
  refine ⟨ps, r, rfl, ?_, chainNodes_length 0 ps r, rfl, ?_⟩
  · cases ps with
    | nil => rfl
    | cons q ps =>
      show inflateLoop (2 * (chainSpec (q :: ps) r).wsize) _ none none = _
      have hw : 2 * (chainSpec (q :: ps) r).wsize =
          2 * (ps.length + 1) + 1 + 1 := by
        rw [chainSpec_wsize]; simp only [List.length_cons]; ring
      rw [hw]
      have hstep : inflateLoop (2 * (ps.length + 1) + 1 + 1)
          [StackElem.widget (chainSpec (q :: ps) r)] (none : Option (WTree ρ))
          none =
          inflateLoop (2 * (ps.length + 1)) [StackElem.widget (chainSpec ps r)]
            (some ⟨[(Widget.render q, [])], 0⟩) (some 0) := rfl
      rw [hstep, inflateLoop_chain ps r ⟨[(Widget.render q, [])], 0⟩ 0
        (2 * (ps.length + 1)) (by simp) (Nat.le_refl _)]
      have hcells := appendChain_cells ps r ([] : List (Widget ρ × List Nat))
        (Widget.render q) 0
      simp only [List.length_nil, List.nil_append, Nat.zero_add] at hcells
      rw [hcells]
      rfl
  · intro i hi
    have := chainNodes_children ps 0 r i hi
    rw [this]
    by_cases hlt : i + 1 < (chainNodes 0 ps r).length
    · rw [if_pos hlt, if_pos hlt]
      have : 0 + i + 1 = i + 1 := by omega
      rw [this]
    · rw [if_neg hlt, if_neg hlt]

/-- Witness for claim C4 at the depth-1 chain `SingleChild(5, Render 7)`. -/
theorem render_single_chain_inflation_witness :
    ∃ (ps : List Nat) (r : Nat),
      (Widget.singleChild 5 (.render 7) : Widget Nat) = chainSpec ps r ∧
      inflate none (Widget.singleChild 5 (.render 7) : Widget Nat) =
        .ok (some ⟨chainNodes 0 ps r, 0⟩) ∧
      (chainNodes 0 ps r).length = 1 + 1 ∧
      chainShape ⟨chainNodes 0 ps r, 0⟩ :=
  render_single_chain_inflation (Widget.singleChild 5 (.render 7)) 1
    (PureRenderSingle.single 5 (PureRenderSingle.render 7))

/-- Claim C10: the unchecked `stack.pop().unwrap()` at the head of the
loop never fails: starting from the singleton stack holding the input
widget, the stack is non-empty at every pop — the loop exits (at the
bottom-of-loop check) before a pop of an empty stack could happen, for
any fuel, initial store and parent context, and in particular for
`inflate`. -/
theorem pop_never_fails {ρ : Type} (fuel : Nat) (w : Widget ρ)
    (tree : Option (WTree ρ)) (nid : Option Nat) :
    inflateLoop fuel [StackElem.widget w] tree nid ≠ .error .popEmptyStack ∧
    inflate tree w ≠ .error .popEmptyStack :=
  ⟨inflateLoop_ne_popEmpty fuel _ tree nid (by simp),
   inflateLoop_ne_popEmpty _ _ tree none (by simp)⟩

end Ribir
